import Mathlib

/-!
# Verification of the stock market-data pipeline

Shallow embedding of the core of the `stock` repository (Python) in Lean 4:
the multi-key sliding-window rate limiter (`utils/key_rate_limiter.py`),
the selective-merge UPSERT layer (`db_manager.py`), the candidate selectors
and task workers of the update scripts (`scripts/update_actions_from_polygon.py`,
`scripts/update_em_daily_prices.py`, `scripts/update_details_from_polygon.py`,
`scripts/update_grouped_daily.py`) and the `daily_run` orchestration
(`main.py`).

Dates are embedded as integers (days since 1970-01-01, via the standard
civil-calendar day-number algorithm, matching Python's `datetime.date`
ordinal arithmetic up to an offset).  Timestamps of the rate limiter are
rationals (seconds on the monotonic clock).  Database rows are total
functions from a column enumeration to optional values; SQL NULL is `none`.
-/

namespace Stock

/-! ## Calendar dates as day numbers

`dayNumber y m d` is the number of days from 1970-01-01 to the civil date
y-m-d (Howard Hinnant's days-from-civil algorithm).  It embeds Python
`datetime.date` values: `date(y,m,d) - date(1970,1,1) = dayNumber y m d`
days, and `timedelta` arithmetic on dates becomes integer arithmetic. -/
def dayNumber (y m d : ℤ) : ℤ :=
  let y' := if m ≤ 2 then y - 1 else y
  let era := y' / 400
  let yoe := y' - era * 400
  let mp := if 2 < m then m - 3 else m + 9
  let doy := (153 * mp + 2) / 5 + d - 1
  let doe := yoe * 365 + yoe / 4 - yoe / 100 + doy
  era * 146097 + doe - 719468

/-- Embedding of `get_dates_to_process` (src/scripts/update_grouped_daily.py):
for parsed start/end dates, the inclusive list of dates from start to end,
and `[]` when start > end. -/
def datesToProcess (s e : ℤ) : List ℤ :=
  if e < s then [] else (List.range (e - s + 1).toNat).map (fun i => s + i)

/-- The start date hardcoded in `update_grouped_daily.main` (`Args.start_date
= "2023-06-29"`). -/
def groupedDailyHardStart : ℤ := dayNumber 2023 6 29

/-- The end date hardcoded in `update_grouped_daily.main` (`Args.end_date =
"2025-06-27"`). -/
def groupedDailyHardEnd : ℤ := dayNumber 2025 6 27

/-- Embedding of the date selection performed by `update_grouped_daily.main`
(src/scripts/update_grouped_daily.py).  The function receives the
`--start-date` / `--end-date` command-line values (here `argStart`,
`argEnd`), but the body never reads them: it builds a local `Args` object
with the hardcoded range and calls `get_dates_to_process` on that. -/
def groupedDailyMainDates (argStart argEnd : ℤ) : List ℤ :=
  datesToProcess groupedDailyHardStart groupedDailyHardEnd

/-- Embedding of step 4 of `run_daily_update` (src/main.py): it computes
yesterday and the day before from the invocation time `today` and passes
them as `--start-date` / `--end-date` to `update_grouped_daily.main`. -/
def dailyRunRepriceDates (today : ℤ) : List ℤ :=
  groupedDailyMainDates (today - 2) (today - 1)

/-! ## Rate limiter (src/utils/key_rate_limiter.py)

`KeyRateLimiter.acquire_key` keeps, per key, a deque of the most recent
`rate_limit` admission timestamps (`collections.deque(maxlen=rate_limit)`),
and admits a key iff the deque has fewer than `rate_limit` entries or
`now - deque[0] > per_seconds`.  All checks and the append of `now` happen
under one lock, so the admissions of a fixed key form a sequence with
nondecreasing monotonic-clock timestamps, each satisfying that condition
against its own key's history; concurrent callers only interleave whole
locked sections and cannot weaken the per-key condition.

`ValidRevHist R W ts` says that `ts` — most recent first — is a possible
full admission history of one key: prepending an admission at time `t`
requires `t` at least every earlier time, and, when at least `R` earlier
admissions exist, `W < t - ts[R-1]` (`ts[R-1]` is the oldest entry of the
maxlen-`R` deque, i.e. `deque[0]` in the source). -/
inductive ValidRevHist (R : ℕ) (W : ℚ) : List ℚ → Prop
  | nil : ValidRevHist R W []
  | cons (t : ℚ) (ts : List ℚ) (hv : ValidRevHist R W ts)
      (hmono : ∀ s ∈ ts, s ≤ t)
      (hgap : R ≤ ts.length → W < t - ts.getD (R - 1) 0) :
      ValidRevHist R W (t :: ts)

/-! ### Concrete simulator for scenario S1 (keys k1,k2, R=2, W=60)

Executable embedding of `acquire_key` for the S1 scenario: state is the
per-key deque plus the current monotonic time; calls are issued
back-to-back, so time advances only through `time.sleep`.  All of the
scenario's time constants are exact multiples of 0.01 s, so time is
represented exactly in integer hundredths of a second: the window is
6000, the sleep buffer `0.01` is 1, and the ±0.1 s tolerance is 10. -/

/-- The key pool of scenario S1. -/
def keysS1 : List String := ["k1", "k2"]

/-- Rate limit R of scenario S1. -/
def rateS1 : ℕ := 2

/-- Window W of scenario S1: 60 s, in hundredths of a second. -/
def windowS1 : ℤ := 6000

/-- Availability test of `acquire_key`: fewer than `rate_limit` entries, or
the oldest entry (`deque[0]`, here the head since deques are kept
oldest-first) is strictly older than the window. -/
def availS1 (h : List ℤ) (now : ℤ) : Bool :=
  if h.length < rateS1 then true else decide (windowS1 < now - h.headD 0)

/-- Append to a `deque(maxlen=rate_limit)`: add at the right, dropping from
the left whatever exceeds the bound. -/
def pushS1 (h : List ℤ) (t : ℤ) : List ℤ :=
  let h2 := h ++ [t]
  h2.drop (h2.length - rateS1)

/-- Limiter state for the S1 simulation: the `self.history` dict (one
deque per key, as an association list over the key pool) and the monotonic
clock. -/
structure StS1 where
  hist : List (String × List ℤ)
  now : ℤ
  deriving DecidableEq, Repr

/-- Read one key's deque from the history dict. -/
def histOf (h : List (String × List ℤ)) (k : String) : List ℤ :=
  (h.lookup k).getD []

/-- Replace one key's deque in the history dict. -/
def setHist (h : List (String × List ℤ)) (k : String) (v : List ℤ) :
    List (String × List ℤ) :=
  h.map (fun p => if p.1 = k then (k, v) else p)

/-- One call of `acquire_key` in scenario S1: scan `keys` in order for the
first available key (the `for key in self.keys` loop with `break`), append
`now` and return it; otherwise compute `min_wait` over all keys, sleep
`max 0 min_wait + 0.01` (here `+ 1` in hundredths), and retry.  `fuel`
bounds the retry loop. -/
def acquireS1 : ℕ → StS1 → Option (String × StS1)
  | 0, _ => none
  | fuel + 1, st =>
    match keysS1.find? (fun k => availS1 (histOf st.hist k) st.now) with
    | some k =>
      some (k, ⟨setHist st.hist k (pushS1 (histOf st.hist k) st.now), st.now⟩)
    | none =>
      let waits := keysS1.map (fun k => (histOf st.hist k).headD 0 + windowS1 - st.now)
      let mw := match waits with
        | [] => 0
        | w :: ws => ws.foldl min w
      acquireS1 fuel ⟨st.hist, st.now + (max 0 mw + 1)⟩

/-- Issue `n` back-to-back `acquire_key` calls, collecting the returned key
and the monotonic time of each return. -/
def runAcquiresS1 : ℕ → StS1 → List (String × ℤ)
  | 0, _ => []
  | n + 1, st =>
    match acquireS1 3 st with
    | none => []
    | some (k, st') => (k, st'.now) :: runAcquiresS1 n st'

/-- Scenario S1: five back-to-back acquires starting at t = 0 on fresh
deques. -/
def simS1 : List (String × ℤ) := runAcquiresS1 5 ⟨keysS1.map (fun k => (k, [])), 0⟩

/-! ### ASCII case mapping

Python's `str.lower()` / `str.upper()` on the ASCII symbols this pipeline
handles, as plain recursive Lean functions (Lean's own `String.toLower` is
not kernel-reducible). -/

/-- Lowercase one ASCII character. -/
def charLower (c : Char) : Char :=
  if c = 'A' then 'a' else if c = 'B' then 'b' else if c = 'C' then 'c'
  else if c = 'D' then 'd' else if c = 'E' then 'e' else if c = 'F' then 'f'
  else if c = 'G' then 'g' else if c = 'H' then 'h' else if c = 'I' then 'i'
  else if c = 'J' then 'j' else if c = 'K' then 'k' else if c = 'L' then 'l'
  else if c = 'M' then 'm' else if c = 'N' then 'n' else if c = 'O' then 'o'
  else if c = 'P' then 'p' else if c = 'Q' then 'q' else if c = 'R' then 'r'
  else if c = 'S' then 's' else if c = 'T' then 't' else if c = 'U' then 'u'
  else if c = 'V' then 'v' else if c = 'W' then 'w' else if c = 'X' then 'x'
  else if c = 'Y' then 'y' else if c = 'Z' then 'z' else c

/-- Uppercase one ASCII character. -/
def charUpper (c : Char) : Char :=
  if c = 'a' then 'A' else if c = 'b' then 'B' else if c = 'c' then 'C'
  else if c = 'd' then 'D' else if c = 'e' then 'E' else if c = 'f' then 'F'
  else if c = 'g' then 'G' else if c = 'h' then 'H' else if c = 'i' then 'I'
  else if c = 'j' then 'J' else if c = 'k' then 'K' else if c = 'l' then 'L'
  else if c = 'm' then 'M' else if c = 'n' then 'N' else if c = 'o' then 'O'
  else if c = 'p' then 'P' else if c = 'q' then 'Q' else if c = 'r' then 'R'
  else if c = 's' then 'S' else if c = 't' then 'T' else if c = 'u' then 'U'
  else if c = 'v' then 'V' else if c = 'w' then 'W' else if c = 'x' then 'X'
  else if c = 'y' then 'Y' else if c = 'z' then 'Z' else c

/-- Python `s.lower()` on ASCII strings. -/
def pyLower (s : String) : String := String.mk (s.data.map charLower)

/-- Python `s.upper()` on ASCII strings. -/
def pyUpper (s : String) : String := String.mk (s.data.map charUpper)

/-! ## The securities table and `upsert_security_info` (src/db_manager.py)

Columns of the `securities` model (src/data_models/models.py).  Cell values
are embedded uniformly as `Option String` (`none` is SQL NULL); a row is a
total function from columns to cells. -/
inductive Col
  | id | symbol | em_code | name | market | type | exchange | currency
  | cik | composite_figi | share_class_figi | market_cap | phone_number
  | description | homepage_url | total_employees | sic_code | industry
  | address_line1 | city | state | postal_code | logo_url | icon_url
  | is_active | list_date | delist_date
  | info_last_updated_at | price_data_latest_date
  | full_data_last_updated_at | actions_last_updated_at
  | full_refresh_interval
  deriving DecidableEq, Repr

/-- A stored `securities` row: the cell of each column (`none` = NULL). -/
abbrev SRow : Type := Col → Option String

/-- An incoming partial record (Python dict): the listed keys are present,
each with its value (`(c, none)` is a key present with an explicit null). -/
abbrev SRecord : Type := List (Col × Option String)

/-- The value the compiled INSERT supplies for column `c` — i.e. what
PostgreSQL's `EXCLUDED.c` holds: the record's value when the key is
present, otherwise the column's default (`is_active` has `default=True`,
`full_refresh_interval` has `default=randint(25,40)` — its draw is the
`rand` parameter —, `info_last_updated_at` has `server_default=now()`), and
NULL for every other column. -/
def insertedVal (rec : SRecord) (nowTs rand : String) (c : Col) : Option String :=
  match rec.lookup c with
  | some v => v
  | none =>
    match c with
    | Col.is_active => some "true"
    | Col.full_refresh_interval => some rand
    | Col.info_last_updated_at => some nowTs
    | _ => none

/-- The ON CONFLICT (id) DO UPDATE row produced by `upsert_security_info`:
`update_columns` is built by iterating `stmt.excluded` — the full column
collection of the `securities` table — keeping every column whose name is
not `id`, `symbol` or `em_code` and mapping it to its `EXCLUDED` value,
then overriding `info_last_updated_at` with `func.now()`. -/
def upsertSecurityMerge (old : SRow) (rec : SRecord) (nowTs rand : String) : SRow :=
  fun c =>
    if c = Col.id ∨ c = Col.symbol ∨ c = Col.em_code then old c
    else if c = Col.info_last_updated_at then some nowTs
    else insertedVal rec nowTs rand c

/-- Embedding of `DatabaseManager.upsert_security_info` restricted to the
existing-row (conflict) path: raises `ValueError` when the record has no
`'id'` key, otherwise produces the merged row. -/
def upsertSecurityInfo (old : SRow) (rec : SRecord) (nowTs rand : String) :
    Except Unit SRow :=
  if Col.id ∈ rec.map Prod.fst then
    Except.ok (upsertSecurityMerge old rec nowTs rand)
  else Except.error ()

/-! ## Details task (src/scripts/update_details_from_polygon.py) -/

/-- The fields of the Polygon `TickerDetails` response read by
`update_security_details` (each `getattr(details_response, _, None)`). -/
structure TickerDetails where
  name : Option String
  primary_exchange : Option String
  currency_name : Option String
  list_date : Option String
  delisted_utc : Option String
  cik : Option String
  composite_figi : Option String
  share_class_figi : Option String
  market_cap : Option String
  phone_number : Option String
  description : Option String
  homepage_url : Option String
  total_employees : Option String
  sic_code : Option String
  sic_description : Option String
  address1 : Option String
  addr_city : Option String
  addr_state : Option String
  addr_postal_code : Option String
  logo_url : Option String
  icon_url : Option String
  locale : Option String
  ptype : Option String
  active : Bool

/-- Embedding of `map_polygon_market`: empty/absent locale gives `None`;
`US` and `GLOBAL` map to the US market; anything else gives `None`. -/
def mapPolygonMarket : Option String → Option String
  | Option.none => none
  | Option.some l =>
    if l = "" then none
    else if pyUpper l = "US" ∨ pyUpper l = "GLOBAL" then some "US"
    else none

/-- Embedding of `map_polygon_asset_type`: empty/absent type gives `None`;
known codes map to their asset type and unknown non-empty codes fall back
to STOCK. -/
def mapPolygonAssetType : Option String → Option String
  | Option.none => none
  | Option.some t =>
    if t = "" then none
    else if pyUpper t = "ETF" ∨ pyUpper t = "ETN" then some "ETF"
    else if pyUpper t = "WARRANT" then some "WARRANT"
    else if pyUpper t = "INDEX" then some "INDEX"
    else if pyUpper t = "MUTUAL FUND" then some "MUTUAL_FUND"
    else if pyUpper t = "PREFERRED STOCK" then some "PREFERRED_STOCK"
    else some "STOCK"

/-- The guaranteed part of the `update_data` dict built by
`update_security_details` (its effective, second construction): the
lowercased `symbol` and the response's `active` flag. -/
def detailsBase (symbol : String) (resp : TickerDetails) : SRecord :=
  [(Col.symbol, some symbol.toLower),
   (Col.is_active, some (if resp.active then "true" else "false"))]

/-- The `potential_updates` dict of `update_security_details`, in source
order (only its non-`None` entries are merged into the record). -/
def detailsPotential (resp : TickerDetails) : SRecord :=
  [(Col.name, resp.name), (Col.exchange, resp.primary_exchange),
   (Col.currency, resp.currency_name), (Col.list_date, resp.list_date),
   (Col.delist_date, resp.delisted_utc), (Col.cik, resp.cik),
   (Col.composite_figi, resp.composite_figi),
   (Col.share_class_figi, resp.share_class_figi),
   (Col.market_cap, resp.market_cap), (Col.phone_number, resp.phone_number),
   (Col.description, resp.description), (Col.homepage_url, resp.homepage_url),
   (Col.total_employees, resp.total_employees), (Col.sic_code, resp.sic_code),
   (Col.industry, resp.sic_description), (Col.address_line1, resp.address1),
   (Col.city, resp.addr_city), (Col.state, resp.addr_state),
   (Col.postal_code, resp.addr_postal_code), (Col.logo_url, resp.logo_url),
   (Col.icon_url, resp.icon_url)]

/-- The full update record `update_security_details` passes to
`upsert_security_info`: the guaranteed keys, then every non-`None` entry
of `potential_updates`, then `market` and `type` (the mapped API value,
falling back to the stored row's `security.market` / `security.type`). -/
def buildUpdateData (symbol : String) (resp : TickerDetails)
    (secMarket secType : Option String) : SRecord :=
  detailsBase symbol resp ++
    (detailsPotential resp).filter (fun p => p.2.isSome) ++
    [(Col.market, (mapPolygonMarket resp.locale).orElse (fun _ => secMarket)),
     (Col.type, (mapPolygonAssetType resp.ptype).orElse (fun _ => secType))]

/-- The record the details task passes to `upsert_security_info` on the
404 mark-inactive path: `{'symbol': symbol, 'is_active': False}`. -/
def notFoundRecord (symbol : String) : SRecord :=
  [(Col.symbol, some symbol), (Col.is_active, some "false")]

/-! ## Candidate selectors (src/scripts/update_actions_from_polygon.py and
src/scripts/update_em_daily_prices.py)

Timestamps and dates are both embedded as integers in day units, so the
90-day actions threshold is `now - 90` and the 2-day price threshold is
`today - 2`. -/

/-- The columns of a `Security` row the selectors read. -/
structure SecSel where
  sid : ℕ
  symbol : String
  em_code : Option String
  market : Option String
  is_active : Bool
  actions_last_updated_at : Option ℤ
  price_data_latest_date : Option ℤ
  deriving DecidableEq, Repr

/-- Arguments of `update_actions_from_polygon.get_securities_to_update`. -/
structure ActArgs where
  symbols : List String
  market : Option String
  force : Bool
  limit : ℕ
  deriving DecidableEq, Repr

/-- The WHERE clause of the actions selector: `is_active`, then the symbol
filter when symbols were named (else the market filter when a market was
named), then — unless `--force` — the staleness disjunction on
`actions_last_updated_at` (NULL or older than 90 days). -/
def actionsPred (now : ℤ) (args : ActArgs) (s : SecSel) : Bool :=
  s.is_active &&
  (if args.symbols.isEmpty then
     match args.market with
     | Option.some m =>
       match s.market with
       | Option.some sm => pyUpper sm = pyUpper m
       | Option.none => false
     | Option.none => true
   else decide (s.symbol ∈ args.symbols.map pyLower)) &&
  (args.force ||
    match s.actions_last_updated_at with
    | Option.none => true
    | Option.some t => decide (t < now - 90))

/-- The ORDER BY `stamp ASC NULLS FIRST` comparison. -/
def stampLE : Option ℤ → Option ℤ → Prop
  | Option.none, _ => True
  | Option.some _, Option.none => False
  | Option.some a, Option.some b => a ≤ b

instance : DecidableRel stampLE := fun a b => by
  unfold stampLE
  cases a <;> cases b <;> infer_instance

/-- Ordering of the actions selector. -/
def actionsLE (a b : SecSel) : Prop :=
  stampLE a.actions_last_updated_at b.actions_last_updated_at

instance : DecidableRel actionsLE := fun a b =>
  inferInstanceAs (Decidable (stampLE _ _))

/-- Embedding of `update_actions_from_polygon.get_securities_to_update`:
filter by `actionsPred`, order by `actions_last_updated_at ASC NULLS
FIRST`, and apply LIMIT when `--limit` is positive. -/
def actionsGetSecurities (now : ℤ) (args : ActArgs) (db : List SecSel) : List SecSel :=
  let fs := db.filter (actionsPred now args)
  let sorted := fs.insertionSort actionsLE
  if 0 < args.limit then sorted.take args.limit else sorted

/-- Arguments of `update_em_daily_prices.get_securities_to_update`
(`--market` has the default `'US'`, so it is always present). -/
structure EmArgs where
  em_codes : List String
  market : String
  fullRefresh : Bool
  limit : ℕ
  deriving DecidableEq, Repr

/-- The WHERE clause of the em-prices selector: `is_active`, `em_code IS
NOT NULL`, the market equality, the `em_code IN (...)` filter when codes
were named, and — unless `--full-refresh` — the staleness disjunction on
`price_data_latest_date` (NULL or before `today - 2`). -/
def emPred (today : ℤ) (args : EmArgs) (s : SecSel) : Bool :=
  s.is_active &&
  s.em_code.isSome &&
  (match s.market with
   | Option.some sm => pyUpper sm = pyUpper args.market
   | Option.none => false) &&
  (args.em_codes.isEmpty ||
    match s.em_code with
    | Option.some c => decide (c ∈ args.em_codes)
    | Option.none => false) &&
  (args.fullRefresh ||
    match s.price_data_latest_date with
    | Option.none => true
    | Option.some d => decide (d < today - 2))

/-- Ordering of the em-prices selector. -/
def emLE (a b : SecSel) : Prop :=
  stampLE a.price_data_latest_date b.price_data_latest_date

instance : DecidableRel emLE := fun a b =>
  inferInstanceAs (Decidable (stampLE _ _))

/-- Embedding of `update_em_daily_prices.get_securities_to_update`: filter
by `emPred`, order by `price_data_latest_date ASC NULLS FIRST`, and apply
LIMIT when `--limit` is positive. -/
def emGetSecurities (today : ℤ) (args : EmArgs) (db : List SecSel) : List SecSel :=
  let fs := db.filter (emPred today args)
  let sorted := fs.insertionSort emLE
  if 0 < args.limit then sorted.take args.limit else sorted

/-! ## Price-increment task (src/scripts/update_em_daily_prices.py,
`process_security`) -/

/-- The success statuses `process_security` can return (errors raise and
are mapped to ERROR, leaving the stamp untouched, so they are not success
statuses). -/
inductive EmStatus
  | success
  | successNoNewData
  | successUpToDate
  deriving DecidableEq, Repr

/-- The `'19700101'` full-history start date. -/
def emEpochStart : ℤ := dayNumber 1970 1 1

/-- The `is_full_run` flag: a full refresh was requested or no price data
exists yet. -/
def emIsFullRun (old : Option ℤ) (fullRefresh : Bool) : Bool :=
  fullRefresh || old.isNone

/-- The fetch start date: the epoch on a full run, else the stored latest
date plus one day. -/
def emStart (old : Option ℤ) (fullRefresh : Bool) : ℤ :=
  if emIsFullRun old fullRefresh then emEpochStart else old.getD 0 + 1

/-- The maximum of a list of dates (`df['date'].max()`), `none` on an empty
frame. -/
def listMax : List ℤ → Option ℤ
  | [] => none
  | x :: xs => some (xs.foldl max x)

/-- Embedding of `process_security`: `fetched` is the list of dates of the
rows the vendor returned for `[start, today]`.  Returns the status together
with the security's `price_data_latest_date` after the run (`old` when the
run does not write it). -/
def processSecurityEm (today : ℤ) (old : Option ℤ) (fullRefresh : Bool)
    (fetched : List ℤ) : EmStatus × Option ℤ :=
  let start := emStart old fullRefresh
  if today < start then (EmStatus.successUpToDate, old)
  else
    match listMax fetched with
    | Option.none =>
      if fullRefresh then (EmStatus.successNoNewData, old)
      else (EmStatus.successNoNewData, some (today - 1))
    | Option.some m => (EmStatus.success, some m)

/-- Pointwise order on the optional latest date, NULL below every date. -/
def optDateLE : Option ℤ → Option ℤ → Prop
  | Option.none, _ => True
  | Option.some _, Option.none => False
  | Option.some a, Option.some b => a ≤ b

instance : DecidableRel optDateLE := fun a b => by
  unfold optDateLE
  cases a <;> cases b <;> infer_instance

/-! ## Daily price rows -/

/-- A `daily_prices` row (src/data_models/models.py); the price cells are
optional rationals (`none` = NULL). -/
structure DRow where
  sid : ℕ
  dOpen : Option ℚ
  dHigh : Option ℚ
  dLow : Option ℚ
  dClose : Option ℚ
  dVolume : Option ℚ
  dVwap : Option ℚ
  dTurnover : Option ℚ
  dTurnoverRate : Option ℚ
  dAdjFactor : Option ℚ
  deriving DecidableEq, Repr

/-! ## Grouped-daily reprice (src/scripts/update_grouped_daily.py,
`process_date`) -/

/-- One entry of the Polygon grouped-daily payload: ticker `T` and the
`o/h/l/c/v/vw` aggregates (each may be missing, `agg.get` returning
`None`). -/
structure Agg where
  T : String
  o : Option ℚ
  h : Option ℚ
  l : Option ℚ
  c : Option ℚ
  v : Option ℚ
  vw : Option ℚ
  deriving DecidableEq, Repr

/-- The in-memory mutation `process_date` applies to a matched ORM record:
overwrite `open/high/low/close/volume/vwap` with the payload values and
`turnover` with `volume * vwap` (NULL when either is missing); every other
attribute is left as it was. -/
def mutateRow (r : DRow) (a : Agg) : DRow :=
  { r with
    dOpen := a.o, dHigh := a.h, dLow := a.l, dClose := a.c,
    dVolume := a.v, dVwap := a.vw,
    dTurnover :=
      match a.v, a.vw with
      | Option.some v, Option.some w => some (v * w)
      | _, _ => none }

/-- One iteration of the `for agg in daily_aggs` loop of `process_date`:
look the lowercased ticker (`agg.get('T', '').lower()`) up in the
pre-built `symbol -> security_id` map; when it resolves to a security id that has a loaded record for this
date, mutate that record in place. -/
def applyAgg (symMap : String → Option ℕ) (st : ℕ → Option DRow) (a : Agg) :
    ℕ → Option DRow :=
  fun i =>
    match symMap (pyLower a.T) with
    | Option.none => st i
    | Option.some sid =>
      match st sid with
      | Option.none => st i
      | Option.some r => if i = sid then some (mutateRow r a) else st i

/-- Embedding of the in-memory phase of `process_date`: starting from the
loaded `security_id -> DailyPrice` map for the target date, fold the
payload over it.  The final map is the state `bulk_update_records`
persists (untouched entries coincide with their stored rows). -/
def processDateMap (symMap : String → Option ℕ) (existing : ℕ → Option DRow)
    (aggs : List Agg) : ℕ → Option DRow :=
  aggs.foldl (applyAgg symMap) existing

/-! ## Batch price upsert (src/db_manager.py, `upsert_daily_prices`) -/

/-- The eight data columns `upsert_daily_prices` probes, in the order of
its `if 'x' in update_keys` chain. -/
inductive PCol
  | pOpen | pHigh | pLow | pClose | pVolume | pTurnover | pVwap | pTurnoverRate
  deriving DecidableEq, Repr

/-- The probe order of the `if`-chain. -/
def pColOrder : List PCol :=
  [PCol.pOpen, PCol.pHigh, PCol.pLow, PCol.pClose, PCol.pVolume,
   PCol.pTurnover, PCol.pVwap, PCol.pTurnoverRate]

/-- One record of the `price_data` batch: the conflict key columns
`security_id` and `date`, plus the present data keys with their values
(`(c, none)` is a key present with an explicit null). -/
structure PRec where
  sid : ℕ
  pdate : ℤ
  fields : List (PCol × Option ℚ)
  deriving DecidableEq, Repr

/-- The SET columns of the ON CONFLICT DO UPDATE clause: each probed
column that occurs among `update_keys = price_data[0].keys()`. -/
def updCols (ks : List PCol) : List PCol :=
  pColOrder.filter (fun c => c ∈ ks)

/-- Read one probed cell of a row. -/
def getP (c : PCol) (r : DRow) : Option ℚ :=
  match c with
  | PCol.pOpen => r.dOpen
  | PCol.pHigh => r.dHigh
  | PCol.pLow => r.dLow
  | PCol.pClose => r.dClose
  | PCol.pVolume => r.dVolume
  | PCol.pTurnover => r.dTurnover
  | PCol.pVwap => r.dVwap
  | PCol.pTurnoverRate => r.dTurnoverRate

/-- Write one probed cell of a row. -/
def setP (c : PCol) (v : Option ℚ) (r : DRow) : DRow :=
  match c with
  | PCol.pOpen => { r with dOpen := v }
  | PCol.pHigh => { r with dHigh := v }
  | PCol.pLow => { r with dLow := v }
  | PCol.pClose => { r with dClose := v }
  | PCol.pVolume => { r with dVolume := v }
  | PCol.pTurnover => { r with dTurnover := v }
  | PCol.pVwap => { r with dVwap := v }
  | PCol.pTurnoverRate => { r with dTurnoverRate := v }

/-- What `EXCLUDED.c` holds for one record of the batch: the record's own
value when the key is present, NULL otherwise (the compiled multi-row
INSERT takes its column list from the first record, so absent keys insert
NULL). -/
def excludedP (rec : PRec) (c : PCol) : Option ℚ :=
  (rec.fields.lookup c).getD none

/-- Apply the DO UPDATE SET clause of one conflicting record: overwrite
exactly the columns of `cols` with their `EXCLUDED` values. -/
def applyUpd (cols : List PCol) (rec : PRec) (old : DRow) : DRow :=
  cols.foldl (fun r c => setP c (excludedP rec c) r) old

/-- The row a non-conflicting record inserts: the listed columns of the
INSERT get their `EXCLUDED` values and `adj_factor` gets its server
default 1. -/
def insertRowP (cols : List PCol) (rec : PRec) : DRow :=
  { sid := rec.sid
    dOpen := if PCol.pOpen ∈ cols then excludedP rec PCol.pOpen else none
    dHigh := if PCol.pHigh ∈ cols then excludedP rec PCol.pHigh else none
    dLow := if PCol.pLow ∈ cols then excludedP rec PCol.pLow else none
    dClose := if PCol.pClose ∈ cols then excludedP rec PCol.pClose else none
    dVolume := if PCol.pVolume ∈ cols then excludedP rec PCol.pVolume else none
    dVwap := if PCol.pVwap ∈ cols then excludedP rec PCol.pVwap else none
    dTurnover := if PCol.pTurnover ∈ cols then excludedP rec PCol.pTurnover else none
    dTurnoverRate :=
      if PCol.pTurnoverRate ∈ cols then excludedP rec PCol.pTurnoverRate else none
    dAdjFactor := some 1 }

/-- The `daily_prices` table, keyed by (security_id, date). -/
abbrev PDb : Type := ℕ × ℤ → Option DRow

/-- The effect of one VALUES tuple of the compiled statement on the table:
a conflicting row is left alone under DO NOTHING (empty SET column list)
and updated on exactly the SET columns otherwise; a non-conflicting tuple
inserts its row. -/
def upsertStep (cols : List PCol) (acc : PDb) (rec : PRec) : PDb :=
  fun k =>
    match acc (rec.sid, rec.pdate) with
    | Option.some old =>
      if cols.isEmpty then acc k
      else if k = (rec.sid, rec.pdate) then some (applyUpd cols rec old) else acc k
    | Option.none =>
      if k = (rec.sid, rec.pdate) then some (insertRowP cols rec) else acc k

/-- Embedding of `DatabaseManager.upsert_daily_prices`: with an empty batch
return the table unchanged; otherwise derive the SET columns from the
first record's keys (`update_keys = price_data[0].keys()`) and apply the
statement tuple by tuple.  When no probed key is present in the first
record the statement is ON CONFLICT DO NOTHING. -/
def upsertDailyPrices (db : PDb) (batch : List PRec) : PDb :=
  match batch with
  | [] => db
  | r0 :: _ => batch.foldl (upsertStep (updCols (r0.fields.map Prod.fst))) db

/-! ## Initialization and exit status (src/scripts/update_grouped_daily.py,
`main`) -/

/-- The environment variables the grouped-daily script reads. -/
structure Env where
  databaseUrl : Option String
  polygonApiKeys : Option String
  deriving DecidableEq, Repr

/-- Split a character list at commas (Python `s.split(',')`). -/
def splitOnComma : List Char → List (List Char)
  | [] => [[]]
  | c :: cs =>
    let r := splitOnComma cs
    if c = ',' then [] :: r
    else
      match r with
      | [] => [[c]]
      | g :: gs => (c :: g) :: gs

/-- Strip leading and trailing blanks (Python `s.strip()` on ASCII). -/
def stripBlanks (cs : List Char) : List Char :=
  ((cs.dropWhile (fun c => c = ' ')).reverse.dropWhile (fun c => c = ' ')).reverse

/-- Embedding of the key parsing in `main`:
`[key.strip() for key in api_keys_str.split(',') if key.strip()]`. -/
def parseApiKeys (s : String) : List String :=
  ((splitOnComma s.data).map (fun cs => String.mk (stripBlanks cs))).filter
    (fun k => k ≠ "")

/-- The fatal initialization checks of `update_grouped_daily.main`, in
source order: `POLYGON_API_KEYS` must be set and non-empty (else `main`
raises `ValueError`), the parsed key list must be non-empty (else
`KeyRateLimiter.__init__` raises `ValueError`), and `DATABASE_URL` must be
set and non-empty (else `DatabaseManager.__init__` raises `ValueError`). -/
def groupedInit (env : Env) : Except String Unit :=
  match env.polygonApiKeys with
  | Option.none => Except.error "POLYGON_API_KEYS not set"
  | Option.some s =>
    if s = "" then Except.error "POLYGON_API_KEYS not set"
    else if (parseApiKeys s).isEmpty then Except.error "empty key list"
    else
      match env.databaseUrl with
      | Option.none => Except.error "DATABASE_URL not found"
      | Option.some u =>
        if u = "" then Except.error "DATABASE_URL not found"
        else Except.ok ()

/-- Per-date outcomes tallied by `main` (each `process_date` catches its
own exceptions and returns a status). -/
inductive GStatus
  | success | successNoApiData | successNoIntersection
  | skippedNoExistingData | error | fatalError
  deriving DecidableEq, Repr

/-- The process exit code of `update_grouped_daily.main`: the `try` body's
`ValueError` (and any other exception) is caught and logged by the
`except` clauses, the `finally` clause runs, `main` returns `None`, and
the interpreter exits 0.  Per-date statuses are only counted and logged;
no path calls `sys.exit` with a non-zero code. -/
def groupedMainExit (env : Env) (results : List GStatus) : ℕ :=
  match groupedInit env with
  | Except.error _ => 0
  | Except.ok _ => 0

/-! ## Helper lemmas -/

/-- A valid reversed admission history is sorted, newest first. -/
theorem validRevHist_sorted {R : ℕ} {W : ℚ} {ts : List ℚ}
    (hv : ValidRevHist R W ts) : List.Sorted (fun a b => b ≤ a) ts := by
  induction hv with
  | nil => exact List.sorted_nil
  | cons t ts hv hmono hgap ih => exact List.sorted_cons.mpr ⟨hmono, ih⟩

/-- In a list sorted newest-first, everything from position `n` on is at
most the entry at position `n`. -/
theorem sorted_ge_drop_le (l : List ℚ) (hs : List.Sorted (fun a b => b ≤ a) l) :
    ∀ n, n < l.length → ∀ s ∈ l.drop n, s ≤ l.getD n 0 := by
  induction l with
  | nil => intro n hn; simp at hn
  | cons x xs ih =>
    intro n hn s hsmem
    match n with
    | 0 =>
      simp only [List.drop_zero] at hsmem
      simp only [List.getD_cons_zero]
      rcases List.mem_cons.mp hsmem with h | h
      · exact h ▸ le_refl x
      · exact (List.sorted_cons.mp hs).1 s h
    | n + 1 =>
      simp only [List.drop_succ_cons] at hsmem
      simp only [List.getD_cons_succ]
      exact ih (List.sorted_cons.mp hs).2 n (Nat.lt_of_succ_lt_succ hn) s hsmem

/-- The seed of a left fold by `max` bounds the fold from below. -/
theorem le_foldl_max (xs : List ℤ) (x : ℤ) : x ≤ xs.foldl max x := by
  induction xs generalizing x with
  | nil => exact le_refl x
  | cons y ys ih => exact le_trans (le_max_left x y) (ih (max x y))

/-- Keys occurring after filtering a record occur in the record. -/
theorem mem_map_fst_filter {p : Col × Option String → Bool} {l : SRecord} {c : Col}
    (h : c ∈ (l.filter p).map Prod.fst) : c ∈ l.map Prod.fst :=
  ((List.filter_sublist l).map Prod.fst).subset h

/-! ## Claims -/

/-- C2.  Rate-limiter sliding-window bound: for every rate limit `R ≥ 1`
and window `W`, every admissible admission history of one key (in any
concurrent execution, since all checks happen under the limiter's lock)
contains at most `R` admissions inside any closed time interval of length
`W`.  Hence any window of `W` seconds sees at most `R` returns of
`acquire_key` yielding that key. -/
theorem c2_rate_limiter_window_bound (R : ℕ) (W : ℚ) (ts : List ℚ)
    (hR : 0 < R) (hv : ValidRevHist R W ts) (a : ℚ) :
    ts.countP (fun s => decide (a ≤ s ∧ s ≤ a + W)) ≤ R := by
  obtain ⟨Q, rfl⟩ : ∃ Q, R = Q + 1 := ⟨R - 1, (Nat.succ_pred_eq_of_pos hR).symm⟩
  induction hv with
  | nil => simp
  | cons t ts hv hmono hgap ih =>
    rw [List.countP_cons]
    by_cases hp : a ≤ t ∧ t ≤ a + W
    · have hcount : ts.countP (fun s => decide (a ≤ s ∧ s ≤ a + W)) ≤ Q := by
        by_cases hlen : Q + 1 ≤ ts.length
        · have hgap' := hgap hlen
          have hQ1 : Q + 1 - 1 = Q := by omega
          rw [hQ1] at hgap'
          have hold : ts.getD Q 0 < a := by linarith [hp.2]
          have hlt : Q < ts.length := by omega
          calc ts.countP (fun s => decide (a ≤ s ∧ s ≤ a + W))
              = (ts.take Q ++ ts.drop Q).countP
                  (fun s => decide (a ≤ s ∧ s ≤ a + W)) := by
                rw [List.take_append_drop]
            _ = (ts.take Q).countP (fun s => decide (a ≤ s ∧ s ≤ a + W)) +
                (ts.drop Q).countP (fun s => decide (a ≤ s ∧ s ≤ a + W)) := by
                rw [List.countP_append]
            _ ≤ Q + 0 := by
                gcongr
                · calc (ts.take Q).countP (fun s => decide (a ≤ s ∧ s ≤ a + W))
                      ≤ (ts.take Q).length := List.countP_le_length _
                    _ ≤ Q := by rw [List.length_take]; exact min_le_left _ _
                · rw [Nat.le_zero, List.countP_eq_zero]
                  intro s hs
                  have hle : s ≤ ts.getD Q 0 :=
                    sorted_ge_drop_le ts (validRevHist_sorted hv) Q hlt s hs
                  simp only [decide_eq_true_eq, not_and, not_le]
                  intro ha
                  linarith
            _ = Q := by omega
        · have : ts.countP (fun s => decide (a ≤ s ∧ s ≤ a + W)) ≤ ts.length :=
            List.countP_le_length _
          omega
      have hd : (decide (a ≤ t ∧ t ≤ a + W) : Bool) = true := by
        simpa using hp
      rw [hd]
      simpa using Nat.succ_le_succ hcount
    · have hd : (decide (a ≤ t ∧ t ≤ a + W) : Bool) = false := by
        simpa using hp
      rw [hd]
      simpa using ih

/-- C2 witness: the bound applied at R = 1, W = 1, to the one-admission
history `[0]` and the window `[0, 1]`. -/
theorem c2_rate_limiter_window_bound_witness :
    0 < 1 ∧ ([(0 : ℚ)].countP (fun s => decide ((0 : ℚ) ≤ s ∧ s ≤ 0 + 1))) ≤ 1 :=
  ⟨Nat.one_pos,
   c2_rate_limiter_window_bound 1 1 [0] Nat.one_pos
     (ValidRevHist.cons 0 [] ValidRevHist.nil
       (fun s hs => absurd hs (List.not_mem_nil s))
       (fun h => absurd h (by simp))) 0⟩

set_option maxRecDepth 100000 in
/-- C3 (code bug).  The claim says the `daily_run` reprice step processes
exactly yesterday and the day before.  On the code it is false at every
invocation date: `update_grouped_daily.main` ignores the dates `main.py`
passes and processes the hardcoded range 2023-06-29 .. 2025-06-27 — here
evaluated at the invocation date 2026-10-12, where the step processes 730
dates, not the two claimed ones. -/
theorem c3_daily_run_reprice_dates_bug :
    dailyRunRepriceDates (dayNumber 2026 10 12) ≠
      [dayNumber 2026 10 12 - 2, dayNumber 2026 10 12 - 1] ∧
    (dailyRunRepriceDates (dayNumber 2026 10 12)).length = 730 ∧
    dailyRunRepriceDates (dayNumber 2026 10 12) =
      datesToProcess (dayNumber 2023 6 29) (dayNumber 2025 6 27) := by
  have hlen : (dailyRunRepriceDates (dayNumber 2026 10 12)).length = 730 := by
    decide
  refine ⟨?_, hlen, rfl⟩
  intro h
  rw [h] at hlen
  simp at hlen

set_option maxRecDepth 100000 in
/-- C6 counterexample.  The claim (scenario S1) says five back-to-back
acquires at t = 0 return k1, k2, k1, k2 and then, after blocking, k1.  On
the code the scan returns the first key whose deque is not yet full, so
the actual key sequence is k1, k1, k2, k2, k1. -/
theorem c6_admission_order_counterexample :
    simS1.map Prod.fst ≠ ["k1", "k2", "k1", "k2", "k1"] := by decide

set_option maxRecDepth 100000 in
/-- C6 (amended).  With keys [k1,k2], R = 2, W = 60s, five back-to-back
acquires at t = 0 return k1, k1, k2, k2; the fifth call blocks and returns
k1 at t = 60.01 s (6001 hundredths), within the ±0.1 s (10 hundredths)
tolerance of t = 60 s. -/
theorem c6_admission_order_amended :
    simS1 = [("k1", 0), ("k1", 0), ("k2", 0), ("k2", 0), ("k1", 6001)] ∧
    |(6001 : ℤ) - 6000| ≤ 10 := by
  constructor
  · decide
  · rw [abs_le]
    constructor <;> norm_num

/-- C1 (code bug).  The claim says columns absent from the record keep
their prior values.  On the code it is false: `update_columns` is built by
iterating `stmt.excluded`, which ranges over every column of the
`securities` table, not over the record's keys, so an upsert of
`{id: 7, name: "Apple"}` against an existing row rewrites every column
except `id`, `symbol`, `em_code` with the would-be-inserted value — NULL
for `description`, the column defaults for `is_active` and
`full_refresh_interval` — contradicting the function's own docstring
("fields not contained in the dict, such as em_code, stay unchanged"). -/
theorem c1_upsert_security_clobbers_absent_fields :
    let old : SRow := fun c =>
      if c = Col.id then some "7" else if c = Col.symbol then some "aapl"
      else if c = Col.em_code then some "105.AAPL"
      else if c = Col.name then some "Apple Inc"
      else if c = Col.description then some "old description" else none
    let r0 : SRecord := [(Col.id, some "7"), (Col.name, some "Apple")]
    upsertSecurityInfo old r0 "T1" "30" =
      Except.ok (upsertSecurityMerge old r0 "T1" "30") ∧
    old Col.description = some "old description" ∧
    upsertSecurityMerge old r0 "T1" "30" Col.description = none ∧
    upsertSecurityMerge old r0 "T1" "30" Col.name = some "Apple" ∧
    upsertSecurityMerge old r0 "T1" "30" Col.em_code = some "105.AAPL" ∧
    upsertSecurityMerge old r0 "T1" "30" Col.is_active = some "true" ∧
    upsertSecurityMerge old r0 "T1" "30" Col.full_refresh_interval = some "30" ∧
    upsertSecurityMerge old r0 "T1" "30" Col.info_last_updated_at = some "T1" :=
  ⟨rfl, rfl, rfl, rfl, rfl, rfl, rfl, rfl⟩

/-- C4 (code bug).  The claim says each details-task record carries
`id = security.id` so the missing-id branch of `upsert_security_info` is
unreachable.  On the code the opposite holds for every response and every
security: neither the normal-path record (`buildUpdateData`) nor the 404
mark-inactive record contains the key `id`, so `upsert_security_info`
raises its `ValueError` on every details-task call. -/
theorem c4_details_record_lacks_id (symbol : String) (resp : TickerDetails)
    (secMarket secType : Option String) (old : SRow) (nowTs rand : String) :
    Col.id ∉ (buildUpdateData symbol resp secMarket secType).map Prod.fst ∧
    upsertSecurityInfo old (buildUpdateData symbol resp secMarket secType) nowTs rand
      = Except.error () ∧
    upsertSecurityInfo old (notFoundRecord symbol) nowTs rand = Except.error () := by
  have hpot : (detailsPotential resp).map Prod.fst =
      [Col.name, Col.exchange, Col.currency, Col.list_date, Col.delist_date,
       Col.cik, Col.composite_figi, Col.share_class_figi, Col.market_cap,
       Col.phone_number, Col.description, Col.homepage_url, Col.total_employees,
       Col.sic_code, Col.industry, Col.address_line1, Col.city, Col.state,
       Col.postal_code, Col.logo_url, Col.icon_url] := rfl
  have hmem : Col.id ∉ (buildUpdateData symbol resp secMarket secType).map Prod.fst := by
    intro h
    rw [buildUpdateData] at h
    simp only [List.map_append, List.mem_append] at h
    rcases h with (h | h) | h
    · simp [detailsBase] at h
    · have := mem_map_fst_filter h
      rw [hpot] at this
      simp at this
    · simp at h
  refine ⟨hmem, ?_, rfl⟩
  rw [upsertSecurityInfo, if_neg hmem]

/-- C5 counterexample.  The claim says explicitly named symbols bypass all
freshness predicates, so a named active security is selected even when its
stamp is recent.  On the code the actions selector still applies the
90-day staleness filter to named symbols: the named, active security below
(stamp 1000, now 1000) is not selected. -/
theorem c5_named_symbol_filtered_counterexample :
    let s : SecSel := ⟨1, "aapl", some "105.AAPL", some "US", true, some 1000, some 1000⟩
    let args : ActArgs := ⟨["AAPL"], none, false, 0⟩
    s.is_active = true ∧
    s.symbol ∈ args.symbols.map pyLower ∧
    actionsGetSecurities 1000 args [s] = [] := by
  refine ⟨rfl, by decide, by decide⟩

/-- C5 (amended).  Explicitly named symbols (or em_codes) restrict the
candidate set and `is_active` is respected, but the freshness predicate is
still applied unless `--force` (actions) or `--full-refresh` (em prices):
with no LIMIT, membership in the selected set is exactly filtering by the
full WHERE clause, whose staleness conjunct applies regardless of whether
symbols were named. -/
theorem c5_candidate_membership_amended (now today : ℤ)
    (aargs : ActArgs) (eargs : EmArgs) (dbA dbE : List SecSel) (s : SecSel)
    (hA : aargs.limit = 0) (hE : eargs.limit = 0) :
    (s ∈ actionsGetSecurities now aargs dbA ↔
       s ∈ dbA ∧ actionsPred now aargs s = true) ∧
    (s ∈ emGetSecurities today eargs dbE ↔
       s ∈ dbE ∧ emPred today eargs s = true) := by
  constructor
  · rw [actionsGetSecurities, hA]
    simp only [lt_irrefl, if_false]
    rw [(List.perm_insertionSort actionsLE _).mem_iff]
    exact List.mem_filter
  · rw [emGetSecurities, hE]
    simp only [lt_irrefl, if_false]
    rw [(List.perm_insertionSort emLE _).mem_iff]
    exact List.mem_filter

/-- C5 witness: the membership characterization applied to singleton
tables and concrete arguments with no LIMIT. -/
theorem c5_candidate_membership_amended_witness :
    let s : SecSel := ⟨1, "aapl", some "105.AAPL", some "US", true, none, none⟩
    (s ∈ actionsGetSecurities 0 ⟨["AAPL"], none, false, 0⟩ [s] ↔
       s ∈ [s] ∧ actionsPred 0 ⟨["AAPL"], none, false, 0⟩ s = true) ∧
    (s ∈ emGetSecurities 0 ⟨[], "US", false, 0⟩ [s] ↔
       s ∈ [s] ∧ emPred 0 ⟨[], "US", false, 0⟩ s = true) :=
  c5_candidate_membership_amended 0 0 ⟨["AAPL"], none, false, 0⟩
    ⟨[], "US", false, 0⟩ _ _ _ rfl rfl

/-- C7 counterexample.  The claim says every success-status run of the
price-increment task leaves `price_data_latest_date` no smaller.  On the
code a full-refresh run refutes it: with the stamp at day 100 and the
vendor's full history ending at day 50 (inside the requested range
epoch..today), the run returns SUCCESS and writes the stamp back to 50. -/
theorem c7_full_refresh_decreases_counterexample :
    processSecurityEm 101 (some 100) true [50] = (EmStatus.success, some 50) ∧
    (∀ d ∈ [(50 : ℤ)], emStart (some 100) true ≤ d ∧ d ≤ 101) ∧
    ¬ optDateLE (some 100) (processSecurityEm 101 (some 100) true [50]).2 := by
  refine ⟨by decide, by decide, by decide⟩

/-- C7 (amended).  For every run of the price-increment task without
`--full-refresh` (so a full-range fetch happens only when the stamp is
NULL), provided the vendor returns only dates at or after the requested
start, the security's `price_data_latest_date` after the run is at least
its value before the run, NULL counting below every date; every such run
returns one of the success statuses. -/
theorem c7_monotone_incremental_amended (today : ℤ) (old : Option ℤ)
    (fetched : List ℤ) (hrange : ∀ d ∈ fetched, emStart old false ≤ d) :
    optDateLE old (processSecurityEm today old false fetched).2 := by
  cases old with
  | none =>
    cases h : (processSecurityEm today none false fetched).2 <;> simp [optDateLE]
  | some v =>
    have hst : emStart (some v) false = v + 1 := by
      simp [emStart, emIsFullRun, Option.isNone]
    rw [processSecurityEm]
    by_cases h1 : today < emStart (some v) false
    · rw [if_pos h1]
      exact le_refl v
    · rw [if_neg h1]
      rw [hst] at h1
      push_neg at h1
      cases hf : listMax fetched with
      | none =>
        simp only [Bool.false_eq_true, if_false]
        show v ≤ today - 1
        omega
      | some m =>
        show v ≤ m
        obtain ⟨x, xs, hx⟩ : ∃ x xs, fetched = x :: xs := by
          cases hfe : fetched with
          | nil => rw [hfe] at hf; simp [listMax] at hf
          | cons x xs => exact ⟨x, xs, rfl⟩
        subst hx
        have hm : m = xs.foldl max x := by
          simpa [listMax] using hf.symm
        have hx1 : v + 1 ≤ x := by
          have := hrange x (List.mem_cons_self x xs)
          rwa [hst] at this
        have := le_foldl_max xs x
        omega

/-- C7 witness: an incremental run with stamp 5 fetching days 6 and 7
keeps the stamp monotone. -/
theorem c7_monotone_incremental_amended_witness :
    optDateLE (some 5) (processSecurityEm 10 (some 5) false [6, 7]).2 :=
  c7_monotone_incremental_amended 10 (some 5) [6, 7] (by decide)

/-- C9 counterexample.  The claim says fatal initialization failure makes
the process exit non-zero.  On the code `update_grouped_daily.main`
catches the `ValueError` (unset `POLYGON_API_KEYS`, or unset
`DATABASE_URL`) with `logger.critical` and returns normally, so the
process exits 0. -/
theorem c9_init_failure_exit_zero_counterexample :
    groupedInit ⟨some "postgresql://h/db", none⟩ =
      Except.error "POLYGON_API_KEYS not set" ∧
    groupedMainExit ⟨some "postgresql://h/db", none⟩ [] = 0 ∧
    groupedInit ⟨none, some "k1,k2"⟩ = Except.error "DATABASE_URL not found" ∧
    groupedMainExit ⟨none, some "k1,k2"⟩ [] = 0 := by
  refine ⟨rfl, rfl, rfl, rfl⟩

/-- C9 (amended).  The grouped-daily script's exit code is 0 in every
case: on success, on fatal initialization failure (which is caught and
logged), and regardless of the per-date error statuses tallied by the
run. -/
theorem c9_exit_code_amended (env : Env) (results : List GStatus) :
    groupedMainExit env results = 0 := by
  rw [groupedMainExit]
  cases groupedInit env with
  | error e => rfl
  | ok u => rfl

/-! ### Lemmas on the grouped-daily in-memory phase -/

/-- Unrolling one payload entry. -/
theorem processDateMap_cons (m : String → Option ℕ) (st : ℕ → Option DRow)
    (a : Agg) (as : List Agg) :
    processDateMap m st (a :: as) = processDateMap m (applyAgg m st a) as := rfl

/-- Splitting the payload around one entry. -/
theorem processDateMap_append_cons (m : String → Option ℕ) (st : ℕ → Option DRow)
    (pre post : List Agg) (a : Agg) :
    processDateMap m st (pre ++ a :: post) =
      processDateMap m (applyAgg m (processDateMap m st pre) a) post := by
  rw [processDateMap, processDateMap, processDateMap, List.foldl_append,
    List.foldl_cons]

/-- One payload entry never creates or deletes a loaded record. -/
theorem applyAgg_isSome (m : String → Option ℕ) (st : ℕ → Option DRow) (a : Agg)
    (i : ℕ) : (applyAgg m st a i).isSome = (st i).isSome := by
  unfold applyAgg
  cases hm : m (pyLower a.T) with
  | none => rfl
  | some sid =>
    show (match st sid with
      | Option.none => st i
      | Option.some r => if i = sid then some (mutateRow r a) else st i).isSome =
      (st i).isSome
    cases hs : st sid with
    | none => rfl
    | some r =>
      show (if i = sid then some (mutateRow r a) else st i).isSome = (st i).isSome
      by_cases hi : i = sid
      · subst hi
        rw [if_pos rfl, hs]
        rfl
      · rw [if_neg hi]

/-- One payload entry preserves `turnover_rate`, `adj_factor` and
`security_id` of whatever record ends up at any id. -/
theorem applyAgg_frame (m : String → Option ℕ) (st : ℕ → Option DRow) (a : Agg)
    (i : ℕ) (r' : DRow) (h : applyAgg m st a i = some r') :
    ∃ r0, st i = some r0 ∧ r'.dTurnoverRate = r0.dTurnoverRate ∧
      r'.dAdjFactor = r0.dAdjFactor ∧ r'.sid = r0.sid := by
  unfold applyAgg at h
  revert h
  cases hm : m (pyLower a.T) with
  | none => exact fun h => ⟨r', h, rfl, rfl, rfl⟩
  | some sid =>
    intro h
    have h2 : (match st sid with
        | Option.none => st i
        | Option.some r => if i = sid then some (mutateRow r a) else st i) =
        some r' := h
    clear h
    revert h2
    cases hs : st sid with
    | none => exact fun h2 => ⟨r', h2, rfl, rfl, rfl⟩
    | some r =>
      intro h2
      have h3 : (if i = sid then some (mutateRow r a) else st i) = some r' := h2
      by_cases hi : i = sid
      · subst hi
        rw [if_pos rfl] at h3
        injection h3 with h'
        subst h'
        exact ⟨r, hs, rfl, rfl, rfl⟩
      · rw [if_neg hi] at h3
        exact ⟨r', h3, rfl, rfl, rfl⟩

/-- Ids never matched by any payload entry keep their record unchanged. -/
theorem processDateMap_untouched (m : String → Option ℕ) (aggs : List Agg) :
    ∀ (st : ℕ → Option DRow) (i : ℕ),
      (∀ a ∈ aggs, m (pyLower a.T) ≠ some i) →
      processDateMap m st aggs i = st i := by
  induction aggs with
  | nil => intro st i h; rfl
  | cons a as ih =>
    intro st i h
    rw [processDateMap_cons,
      ih (applyAgg m st a) i (fun b hb => h b (List.mem_cons_of_mem a hb))]
    unfold applyAgg
    cases hm : m (pyLower a.T) with
    | none => rfl
    | some sid =>
      show (match st sid with
        | Option.none => st i
        | Option.some r => if i = sid then some (mutateRow r a) else st i) = st i
      cases hs : st sid with
      | none => rfl
      | some r =>
        show (if i = sid then some (mutateRow r a) else st i) = st i
        have hne : i ≠ sid := by
          intro he
          exact h a (List.mem_cons_self a as) (by rw [hm, he])
        rw [if_neg hne]

/-- The whole in-memory phase preserves `turnover_rate`, `adj_factor` and
`security_id`. -/
theorem processDateMap_frame (m : String → Option ℕ) (aggs : List Agg) :
    ∀ (st : ℕ → Option DRow) (i : ℕ) (r' : DRow),
      processDateMap m st aggs i = some r' →
      ∃ r0, st i = some r0 ∧ r'.dTurnoverRate = r0.dTurnoverRate ∧
        r'.dAdjFactor = r0.dAdjFactor ∧ r'.sid = r0.sid := by
  induction aggs with
  | nil =>
    intro st i r' h
    exact ⟨r', h, rfl, rfl, rfl⟩
  | cons a as ih =>
    intro st i r' h
    rw [processDateMap_cons] at h
    obtain ⟨r1, h1, e1, e2, e3⟩ := ih (applyAgg m st a) i r' h
    obtain ⟨r0, h0, f1, f2, f3⟩ := applyAgg_frame m st a i r1 h1
    exact ⟨r0, h0, e1.trans f1, e2.trans f2, e3.trans f3⟩

/-- The whole in-memory phase neither creates nor deletes records. -/
theorem processDateMap_isSome (m : String → Option ℕ) (aggs : List Agg) :
    ∀ (st : ℕ → Option DRow) (i : ℕ),
      (processDateMap m st aggs i).isSome = (st i).isSome := by
  induction aggs with
  | nil => intro st i; rfl
  | cons a as ih =>
    intro st i
    rw [processDateMap_cons, ih, applyAgg_isSome]

/-- The mutation only reads the preserved fields of the record, so records
agreeing on those fields mutate identically. -/
theorem mutateRow_congr {r1 r0 : DRow} (a : Agg)
    (h1 : r1.dTurnoverRate = r0.dTurnoverRate)
    (h2 : r1.dAdjFactor = r0.dAdjFactor) (h3 : r1.sid = r0.sid) :
    mutateRow r1 a = mutateRow r0 a := by
  cases r1
  cases r0
  cases h1
  cases h2
  cases h3
  rfl

/-- C8.  Grouped-daily reconciliation frame: for every payload, symbol
map and loaded set of rows for the date, (i) whatever record ends at an
id keeps its stored `turnover_rate`, `adj_factor` and `security_id`;
(ii) an id matched by no payload symbol keeps its row entirely unchanged
(in particular any entry whose symbol is absent from the map changes
nothing); (iii) an id whose last matching payload entry is `a` ends at
exactly its stored row with `open/high/low/close/volume/vwap` overwritten
by `a` and `turnover` set to `volume * vwap` (NULL when either is
missing). -/
theorem c8_grouped_daily_frame (m : String → Option ℕ)
    (existing : ℕ → Option DRow) (aggs : List Agg) (sid : ℕ) :
    (∀ r', processDateMap m existing aggs sid = some r' →
       ∃ r0, existing sid = some r0 ∧ r'.dTurnoverRate = r0.dTurnoverRate ∧
         r'.dAdjFactor = r0.dAdjFactor ∧ r'.sid = r0.sid) ∧
    ((∀ a ∈ aggs, m (pyLower a.T) ≠ some sid) →
       processDateMap m existing aggs sid = existing sid) ∧
    (∀ pre a post, aggs = pre ++ a :: post →
       m (pyLower a.T) = some sid →
       (∀ b ∈ post, m (pyLower b.T) ≠ some sid) →
       ∀ r0, existing sid = some r0 →
         processDateMap m existing aggs sid = some (mutateRow r0 a)) := by
  refine ⟨fun r' h => processDateMap_frame m aggs existing sid r' h,
    fun h => processDateMap_untouched m aggs existing sid h,
    ?_⟩
  intro pre a post heq hm hpost r0 h0
  subst heq
  rw [processDateMap_append_cons]
  rw [processDateMap_untouched m post _ sid hpost]
  have hs1 : (processDateMap m existing pre sid).isSome = true := by
    rw [processDateMap_isSome, h0]
    rfl
  obtain ⟨r1, hr1⟩ := Option.isSome_iff_exists.mp hs1
  obtain ⟨r0', h0', f1, f2, f3⟩ := processDateMap_frame m pre existing sid r1 hr1
  rw [h0] at h0'
  injection h0' with h0''
  subst h0''
  have hstep : applyAgg m (processDateMap m existing pre) a sid =
      some (mutateRow r1 a) := by
    unfold applyAgg
    rw [hm]
    show (match processDateMap m existing pre sid with
      | Option.none => processDateMap m existing pre sid
      | Option.some r =>
        if sid = sid then some (mutateRow r a)
        else processDateMap m existing pre sid) = some (mutateRow r1 a)
    rw [hr1]
    show (if sid = sid then some (mutateRow r1 a) else some r1) =
      some (mutateRow r1 a)
    rw [if_pos rfl]
  rw [hstep, mutateRow_congr a f1 f2 f3]

/-- C8 witness: the scenario-S4 shaped instance — one payload entry for
the one loaded row — evaluated through the theorem's matched case. -/
theorem c8_grouped_daily_frame_witness :
    processDateMap (fun s => if s = "aapl" then some 3 else none)
      (fun i => if i = 3 then
        some ⟨3, some 1, some 2, some (1 / 2), some (3 / 2),
          none, none, none, some (23 / 1000), some 1⟩ else none)
      [⟨"AAPL", some (101 / 100), some (201 / 100), some (3 / 5),
        some (31 / 20), some 1000, some (6 / 5)⟩] 3 =
    some (mutateRow
      ⟨3, some 1, some 2, some (1 / 2), some (3 / 2),
        none, none, none, some (23 / 1000), some 1⟩
      ⟨"AAPL", some (101 / 100), some (201 / 100), some (3 / 5),
        some (31 / 20), some 1000, some (6 / 5)⟩) :=
  (c8_grouped_daily_frame _ _ _ 3).2.2 [] _ [] rfl (by decide)
    (by intro b hb; exact absurd hb (List.not_mem_nil b)) _ rfl

/-! ### Lemmas on the batch price upsert -/

/-- Reading a cell other than the one written is unchanged. -/
theorem getP_setP_ne (c d : PCol) (v : Option ℚ) (r : DRow) (hcd : c ≠ d) :
    getP c (setP d v r) = getP c r := by
  cases c <;> cases d <;> first
    | rfl
    | exact absurd rfl hcd

/-- The DO UPDATE SET clause leaves every column outside its column list
unchanged. -/
theorem getP_applyUpd_not_mem (cols : List PCol) (rec : PRec) :
    ∀ (old : DRow) (c : PCol), c ∉ cols →
      getP c (applyUpd cols rec old) = getP c old := by
  induction cols with
  | nil => intro old c hc; rfl
  | cons d ds ih =>
    intro old c hc
    have hstep : applyUpd (d :: ds) rec old =
        applyUpd ds rec (setP d (excludedP rec d) old) := rfl
    rw [hstep, ih _ c (fun h => hc (List.mem_cons_of_mem d h)),
      getP_setP_ne c d _ old (fun he => hc (he ▸ List.mem_cons_self d ds))]

/-- A column in the derived SET list occurs among the first record's
keys. -/
theorem updCols_subset (ks : List PCol) (c : PCol) (h : c ∈ updCols ks) :
    c ∈ ks := by
  have := (List.mem_filter.mp h).2
  simpa using this

/-- Invariant of the tuple-by-tuple fold: every row present in the
original table stays present, unchanged outside the SET columns. -/
theorem upsertFold_frame (cols : List PCol) (batch : List PRec) (db : PDb) :
    ∀ acc : PDb,
      (∀ k old, db k = some old → ∃ r', acc k = some r' ∧
        ∀ c, c ∉ cols → getP c r' = getP c old) →
      ∀ k old, db k = some old →
        ∃ r', (batch.foldl (upsertStep cols) acc) k = some r' ∧
          ∀ c, c ∉ cols → getP c r' = getP c old := by
  induction batch with
  | nil => intro acc hP k old hk; exact hP k old hk
  | cons rec0 rest ih =>
    intro acc hP k old hk
    rw [List.foldl_cons]
    refine ih (upsertStep cols acc rec0) ?_ k old hk
    intro k' old' hk'
    obtain ⟨r', hr', hfr⟩ := hP k' old' hk'
    unfold upsertStep
    cases hacc : acc (rec0.sid, rec0.pdate) with
    | none =>
      show ∃ r'', (if k' = (rec0.sid, rec0.pdate)
          then some (insertRowP cols rec0) else acc k') = some r'' ∧
        ∀ c, c ∉ cols → getP c r'' = getP c old'
      have hne : k' ≠ (rec0.sid, rec0.pdate) := by
        intro he
        rw [he, hacc] at hr'
        exact Option.noConfusion hr'
      rw [if_neg hne]
      exact ⟨r', hr', hfr⟩
    | some oldrow =>
      show ∃ r'', (if cols.isEmpty then acc k'
          else if k' = (rec0.sid, rec0.pdate)
            then some (applyUpd cols rec0 oldrow) else acc k') = some r'' ∧
        ∀ c, c ∉ cols → getP c r'' = getP c old'
      by_cases hempty : cols.isEmpty
      · rw [if_pos hempty]
        exact ⟨r', hr', hfr⟩
      · rw [if_neg hempty]
        by_cases he : k' = (rec0.sid, rec0.pdate)
        · rw [if_pos he]
          rw [he, hacc] at hr'
          injection hr' with hro
          subst hro
          refine ⟨applyUpd cols rec0 oldrow, rfl, ?_⟩
          intro c hc
          rw [getP_applyUpd_not_mem cols rec0 oldrow c hc]
          exact hfr c hc
        · rw [if_neg he]
          exact ⟨r', hr', hfr⟩

/-- With an empty SET column list (DO NOTHING) every row present in the
original table is left entirely unchanged by the fold. -/
theorem upsertFold_nothing (batch : List PRec) (db : PDb) :
    ∀ acc : PDb, (∀ k old, db k = some old → acc k = some old) →
      ∀ k old, db k = some old →
        (batch.foldl (upsertStep []) acc) k = some old := by
  induction batch with
  | nil => intro acc hP k old hk; exact hP k old hk
  | cons rec0 rest ih =>
    intro acc hP k old hk
    rw [List.foldl_cons]
    refine ih (upsertStep [] acc rec0) ?_ k old hk
    intro k' old' hk'
    have hr' := hP k' old' hk'
    unfold upsertStep
    cases hacc : acc (rec0.sid, rec0.pdate) with
    | none =>
      show (if k' = (rec0.sid, rec0.pdate)
          then some (insertRowP [] rec0) else acc k') = some old'
      have hne : k' ≠ (rec0.sid, rec0.pdate) := by
        intro he
        rw [he, hacc] at hr'
        exact Option.noConfusion hr'
      rw [if_neg hne]
      exact hr'
    | some oldrow =>
      show (if (List.isEmpty []) then acc k'
          else if k' = (rec0.sid, rec0.pdate)
            then some (applyUpd [] rec0 oldrow) else acc k') = some old'
      exact hr'

/-- C10.  `upsert_daily_prices` derives its SET column list from the first
record of the batch alone: (i) for every conflicting row, every probed
column absent from the first record's keys keeps its prior value — even
when some later record of the batch carries that key; (ii) when the first
record carries none of the eight probed keys, the whole statement is
insert-or-ignore and every conflicting row is left entirely unchanged. -/
theorem c10_upsert_daily_prices_first_record_columns (db : PDb) (r0 : PRec)
    (rest : List PRec) :
    (∀ k old, db k = some old →
       ∃ r', upsertDailyPrices db (r0 :: rest) k = some r' ∧
         ∀ c, c ∉ r0.fields.map Prod.fst → getP c r' = getP c old) ∧
    (updCols (r0.fields.map Prod.fst) = [] →
       ∀ k old, db k = some old → upsertDailyPrices db (r0 :: rest) k = some old) := by
  constructor
  · intro k old hk
    obtain ⟨r', hr', hfr⟩ :=
      upsertFold_frame (updCols (r0.fields.map Prod.fst)) (r0 :: rest) db db
        (fun k' old' hk' => ⟨old', hk', fun c hc => rfl⟩) k old hk
    refine ⟨r', hr', fun c hc => hfr c ?_⟩
    intro hmem
    exact hc (updCols_subset _ c hmem)
  · intro h0 k old hk
    show ((r0 :: rest).foldl (upsertStep (updCols (r0.fields.map Prod.fst))) db) k =
      some old
    rw [h0]
    exact upsertFold_nothing (r0 :: rest) db db (fun k' old' hk' => hk') k old hk

/-- C10 witness: a two-record batch whose first record carries only
`open`; the conflicting row of the second record keeps its `close`
(a key present only in the later record) and every other probed column. -/
theorem c10_upsert_daily_prices_first_record_columns_witness :
    ∃ r', upsertDailyPrices
        (fun k => if k = (2, 0) then
          some ⟨2, some 9, none, none, some 8, none, none, none, none, some 1⟩
          else none)
        [⟨1, 0, [(PCol.pOpen, some 1)]⟩, ⟨2, 0, [(PCol.pClose, some 2)]⟩] (2, 0) =
        some r' ∧
      ∀ c, c ∉ (PRec.mk 1 0 [(PCol.pOpen, some 1)]).fields.map Prod.fst →
        getP c r' = getP c
          (⟨2, some 9, none, none, some 8, none, none, none, none, some 1⟩ : DRow) :=
  (c10_upsert_daily_prices_first_record_columns
      (fun k => if k = (2, 0) then
        some ⟨2, some 9, none, none, some 8, none, none, none, none, some 1⟩
        else none)
      ⟨1, 0, [(PCol.pOpen, some 1)]⟩ [⟨2, 0, [(PCol.pClose, some 2)]⟩]).1
    (2, 0) _ rfl

end Stock
